import Mathlib

/-!
Verification development for the online-bidding fantasy auction simulator
(`src/simulate.py`).

The Python program is embedded shallowly:
* player records become the structure `Player` (numbers are modelled as `ℚ`,
  since every arithmetic operation the claims inspect is field arithmetic);
* the four bidding-strategy classes become the tagged type `SKind` together
  with the state structure `SimStrategy`; the methods `can_acquire` and
  `compute_bid` are translated line by line;
* the UCB1 bandit becomes the structure `UCB1` with `select_arm` and
  `update`; `math.sqrt` and `math.log` are modelled by `Real.sqrt` and
  `Real.log`;
* Python indexing, which raises `IndexError` when out of range, is modelled
  with `Option` (for expressions) and `Except SimError` (for the round loop);
* the two random draws (`random.uniform(0.7, 1.2)` for the competitive bid
  and `random.random()` / `random.uniform(0, v)` inside `EpsilonGreedy`) are
  determinized as explicit per-round inputs, quantified over in theorems.
-/

/-- The fixed four-element role set of the player records. -/
inductive Role where
  | forward
  | midfielder
  | defender
  | goalkeeper
deriving DecidableEq, Repr

instance : Fintype Role where
  elems := ⟨[Role.forward, Role.midfielder, Role.defender, Role.goalkeeper], by decide⟩
  complete := fun x => by cases x <;> decide

/-- A player record `{value, cost, role}` (source lines 105-109). -/
structure Player where
  value : ℚ
  cost : ℚ
  role : Role
deriving DecidableEq, Repr

/-- The `role_requirements` dictionary (source lines 6-11). -/
def role_requirements : Role → ℕ
  | Role.forward => 3
  | Role.midfielder => 4
  | Role.defender => 3
  | Role.goalkeeper => 1

/-- `sum(1 for p in self.acquired_players if self.players[p]['role'] == player_role)`
(source line 20).  `none` models the `IndexError` raised when an acquired index
is out of range of `players`. -/
def roleCount : List Player → List ℕ → Role → Option ℕ
  | _, [], _ => some 0
  | players, p :: rest, r =>
    match players[p]? with
    | none => none
    | some q => (roleCount players rest r).map (fun c => (if q.role = r then 1 else 0) + c)

/-- Total role count: the number of indices in `acquired` whose player (looked
up in `players`) has role `r`.  Agrees with `roleCount` whenever the latter
succeeds. -/
def roleCountN (players : List Player) (acquired : List ℕ) (r : Role) : ℕ :=
  (acquired.filter (fun p =>
    match players[p]? with
    | some q => decide (q.role = r)
    | none => false)).length

/-- `BaseBiddingStrategy.can_acquire` (source lines 18-21): the candidate's
role is looked up, the acquired players sharing that role are counted, and
the result is the comparison against `role_requirements`. -/
def can_acquire (players : List Player) (acquired_players : List ℕ)
    (player_index : ℕ) : Option Bool :=
  match players[player_index]? with
  | none => none
  | some player =>
    (roleCount players acquired_players player.role).map
      (fun c => decide (c < role_requirements player.role))

/-- The tag distinguishing the four strategy classes, carrying each class's
own constructor parameters. -/
inductive SKind where
  | epsilonGreedy (epsilon : ℚ) (exploitation_factor : ℚ)
  | reactive (initial_bid_factor : ℚ)
  | valueBased
  | optimalTeamCompositionLP
deriving DecidableEq, Repr

/-- The per-strategy mutable state manipulated by `warm_start_simulation`:
`players` and `acquired_players` from `BaseBiddingStrategy`, `bid_history`
(present only on `Reactive` in Python; ignored by the other variants here),
and the `remaining_budget` attribute that lines 137-138 of the source
read and write. -/
structure SimStrategy where
  kind : SKind
  players : List Player
  acquired_players : List ℕ
  bid_history : List ℚ
  remaining_budget : ℚ
deriving DecidableEq, Repr

/-- `compute_bid` of the four strategy classes (source lines 29-35, 43-51,
54-58, 61-65).  `re` carries the two random draws `EpsilonGreedy` may
consume: `re.1` models `random.random()` and `re.2` models the result of
`random.uniform(0, player_value)`.  `none` models a raised `IndexError`. -/
def SimStrategy.compute_bid (s : SimStrategy) (player_index : ℕ) (re : ℚ × ℚ) : Option ℚ :=
  match s.kind with
  | SKind.epsilonGreedy epsilon exploitation_factor =>
    match can_acquire s.players s.acquired_players player_index with
    | none => none
    | some false => some 0
    | some true =>
      match s.players[player_index]? with
      | none => none
      | some player =>
        if re.1 < epsilon then some re.2
        else some (player.value * exploitation_factor)
  | SKind.reactive initial_bid_factor =>
    match can_acquire s.players s.acquired_players player_index with
    | none => none
    | some false => some 0
    | some true =>
      match s.players[player_index]? with
      | none => none
      | some player =>
        if s.bid_history.isEmpty then some (player.value * initial_bid_factor)
        else
          let avg_bid := s.bid_history.sum / (s.bid_history.length : ℚ)
          let bid_factor := avg_bid / player.value + 0.05
          some (player.value * bid_factor)
  | SKind.valueBased =>
    match can_acquire s.players s.acquired_players player_index with
    | none => none
    | some false => some 0
    | some true =>
      match s.players[player_index]? with
      | none => none
      | some player => some (player.value * 0.8)
  | SKind.optimalTeamCompositionLP =>
    match can_acquire s.players s.acquired_players player_index with
    | none => none
    | some false => some 0
    | some true =>
      match s.players[player_index]? with
      | none => none
      | some player => some (0.9 * player.value)

/-- The UCB1 bandit (source lines 69-93).  `strategies` is the list of
registered strategies; `counts` and `values` are the per-arm statistics,
initialised to `[0] * len(strategies)` by the constructor. -/
structure UCB1 where
  strategies : List SimStrategy
  counts : List ℕ
  values : List ℚ
deriving DecidableEq, Repr

/-- The `UCB1.__init__` constructor (source lines 70-73). -/
def UCB1_init (strategies : List SimStrategy) : UCB1 :=
  { strategies := strategies
    counts := List.replicate strategies.length 0
    values := List.replicate strategies.length 0 }

/-- The exploration loop of `select_arm` (source lines 78-80): the index of
the first arm whose count is `0`, if any. -/
def firstZeroIdx : List ℕ → Option ℕ
  | [] => none
  | c :: rest => if c = 0 then some 0 else (firstZeroIdx rest).map (· + 1)

/-- The list `ucb_values` (source lines 82-86):
`values[i] + sqrt((2 * log(total_counts)) / counts[i])` for each arm. -/
noncomputable def ucbValues (m : UCB1) : List ℝ :=
  (List.range m.counts.length).map (fun i =>
    ((m.values.getD i 0 : ℚ) : ℝ) +
      Real.sqrt ((2 * Real.log (m.counts.sum : ℝ)) / (m.counts.getD i 0 : ℝ)))

open Classical in
/-- `maxWithIdx l = some (j, v)` where `v` is the maximum of `l` and `j` the
first index attaining it — the value/index pair computed by
`ucb_values.index(max(ucb_values))` at source line 87.  `none` exactly when
`l` is empty (where Python's `max` raises). -/
noncomputable def maxWithIdx : List ℝ → Option (ℕ × ℝ)
  | [] => none
  | x :: xs =>
    match maxWithIdx xs with
    | none => some (0, x)
    | some (j, m) => if x < m then some (j + 1, m) else some (0, x)

/-- `ucb_values.index(max(ucb_values))` (source line 87). -/
noncomputable def idxOfMax (l : List ℝ) : ℕ :=
  (maxWithIdx l).elim 0 Prod.fst

/-- `UCB1.select_arm` (source lines 75-87). -/
noncomputable def UCB1.select_arm (m : UCB1) : ℕ :=
  match firstZeroIdx m.counts with
  | some i => i
  | none => idxOfMax (ucbValues m)

/-- `UCB1.update` (source lines 89-93): increment the chosen arm's count to
`n`, then replace its value by `((n - 1) / n) * value + (1 / n) * reward`.
Out-of-range arms are the theorems' concern, not the definition's: `getD`
and `set` are total where Python would raise. -/
def UCB1.update (m : UCB1) (chosen_arm : ℕ) (reward : ℚ) : UCB1 :=
  let n : ℕ := m.counts.getD chosen_arm 0 + 1
  let value : ℚ := m.values.getD chosen_arm 0
  { m with
    counts := m.counts.set chosen_arm n
    values := m.values.set chosen_arm ((((n : ℚ) - 1) / n) * value + (1 / n) * reward) }

/-- The errors a simulation run can raise.  `indexOutOfRange` models
Python's `IndexError` (the spec's IndexOutOfRange kind). -/
inductive SimError where
  | indexOutOfRange
deriving DecidableEq, Repr

/-- One iteration of the loop in `warm_start_simulation` (source lines
120-138), at round `i` with competitive-bid draw `rc` (the result of
`random.uniform(0.7, 1.2)`) and EpsilonGreedy draws `re`. -/
noncomputable def runRound (m : UCB1) (historical_data : List Player) (i : ℕ)
    (rc : ℚ) (re : ℚ × ℚ) : Except SimError UCB1 :=
  match historical_data[i]? with
  | none => Except.error SimError.indexOutOfRange
  | some player =>
    let competitive_bid := player.value * rc
    let chosen_strategy_idx := m.select_arm
    match m.strategies[chosen_strategy_idx]? with
    | none => Except.error SimError.indexOutOfRange
    | some chosen_strategy =>
      match chosen_strategy.compute_bid i re with
      | none => Except.error SimError.indexOutOfRange
      | some bid =>
        let reward : ℚ := if bid > competitive_bid then 1 else 0
        let m2 := m.update chosen_strategy_idx reward
        if reward = 1 then
          Except.ok
            { m2 with
              strategies := m2.strategies.set chosen_strategy_idx
                { chosen_strategy with
                  acquired_players := chosen_strategy.acquired_players ++ [i]
                  remaining_budget := chosen_strategy.remaining_budget - player.cost } }
        else Except.ok m2

/-- The winning-round update of `warm_start_simulation` (source lines
136-138) applied to strategy `s` on player `pl` at index `i`: append the
player's index and subtract the player's cost from the budget. -/
def acquireUpd (s : SimStrategy) (pl : Player) (i : ℕ) : SimStrategy :=
  { s with acquired_players := s.acquired_players ++ [i]
           remaining_budget := s.remaining_budget - pl.cost }

/-- The `for i in range(n_rounds)` loop of `warm_start_simulation`, started
at round index `i` with `n` rounds left. -/
noncomputable def runSimAux (historical_data : List Player) (randC : ℕ → ℚ)
    (randE : ℕ → ℚ × ℚ) (m : UCB1) (i : ℕ) : ℕ → Except SimError UCB1
  | 0 => Except.ok m
  | n + 1 =>
    match runRound m historical_data i (randC i) (randE i) with
    | Except.error e => Except.error e
    | Except.ok m2 => runSimAux historical_data randC randE m2 (i + 1) n

/-- `warm_start_simulation(ucb1_model, historical_data, n_rounds)` (source
lines 116-138), with the `n_rounds=None` default resolving to the pool
length (lines 117-118).  The random streams are explicit inputs. -/
noncomputable def warm_start_simulation (ucb1_model : UCB1)
    (historical_data : List Player) (randC : ℕ → ℚ) (randE : ℕ → ℚ × ℚ)
    (n_rounds : Option ℕ) : Except SimError UCB1 :=
  runSimAux historical_data randC randE ucb1_model 0
    (n_rounds.getD historical_data.length)

/-- The range of the competitive-bid draw `random.uniform(0.7, 1.2)` at
source line 125. -/
def competitiveFactorRange (rc : ℚ) : Prop :=
  7 / 10 ≤ rc ∧ rc ≤ 6 / 5

/-- The constant-factor bidder described by the spec's words for claim C8:
"returns value(p) * initial_bid_factor when can_acquire(p) is true and 0
otherwise".  Written from the spec, to be compared with the `Reactive`
branch of `compute_bid`. -/
def constantFactorBid (players : List Player) (acquired_players : List ℕ)
    (factor : ℚ) (player_index : ℕ) : Option ℚ :=
  match can_acquire players acquired_players player_index with
  | none => none
  | some ca =>
    match players[player_index]? with
    | none => none
    | some player => some (if ca then player.value * factor else 0)

/-!  Constructor embeddings (for claim C6).  These record exactly the
attributes each `__init__` sets and exactly the parameters it accepts;
none of them has a `remaining_budget` slot, because no constructor in the
source sets that attribute. -/

/-- The attributes set by `BaseBiddingStrategy.__init__(self, players)`
(source lines 14-16). -/
structure BaseAttrs where
  players : List Player
  acquired_players : List ℕ
deriving DecidableEq, Repr

/-- `BaseBiddingStrategy.__init__` (source lines 14-16): its only
parameter besides `self` is `players`. -/
def BaseBiddingStrategy_init (players : List Player) : BaseAttrs :=
  { players := players, acquired_players := [] }

/-- The attributes of a constructed `EpsilonGreedy` object. -/
structure EpsilonGreedyAttrs extends BaseAttrs where
  epsilon : ℚ
  exploitation_factor : ℚ
deriving DecidableEq, Repr

/-- `EpsilonGreedy.__init__(self, players, epsilon=0.1, exploitation_factor=0.8)`
(source lines 24-27): the second positional argument binds to `epsilon`. -/
def EpsilonGreedy_init (players : List Player) (epsilon : ℚ)
    (exploitation_factor : ℚ) : EpsilonGreedyAttrs :=
  { BaseBiddingStrategy_init players with
    epsilon := epsilon, exploitation_factor := exploitation_factor }

/-- The attributes of a constructed `Reactive` object. -/
structure ReactiveAttrs extends BaseAttrs where
  bid_history : List ℚ
  initial_bid_factor : ℚ
deriving DecidableEq, Repr

/-- `Reactive.__init__(self, players, initial_bid_factor=1.0)` (source
lines 38-41): the second positional argument binds to `initial_bid_factor`. -/
def Reactive_init (players : List Player) (initial_bid_factor : ℚ) : ReactiveAttrs :=
  { BaseBiddingStrategy_init players with
    bid_history := [], initial_bid_factor := initial_bid_factor }

/-!  Test harnesses for the bandit claims. -/

/-- Replay a list of `update(arm, reward)` calls, first element first
(for claim C4). -/
def replay (m : UCB1) : List (ℕ × ℚ) → UCB1
  | [] => m
  | (a, r) :: rest => replay (m.update a r) rest

/-- The rewards passed to `update` for a given arm, in order. -/
def armRewards (arm : ℕ) (seq : List (ℕ × ℚ)) : List ℚ :=
  (seq.filter (fun x => x.1 = arm)).map Prod.snd

/-- `j` alternations of `select_arm()` followed by `update` on the selected
arm with reward `r j` — the call pattern of the simulation loop (for
claim C9). -/
noncomputable def exploreRun (m : UCB1) (r : ℕ → ℚ) : ℕ → UCB1
  | 0 => m
  | j + 1 =>
    let m2 := exploreRun m r j
    m2.update m2.select_arm (r j)

/-!  Invariant and well-formedness predicates for the simulation claims.
(Lemmas about `firstZeroIdx` and `maxWithIdx` appear further below.) -/

/-- The roster invariant of claim C1: every registered strategy was built
over `pool`, and for every role the number of its acquired players of that
role is within the role requirement. -/
def RoleInv (pool : List Player) (m : UCB1) : Prop :=
  ∀ s ∈ m.strategies, s.players = pool ∧
    ∀ r : Role, roleCountN pool s.acquired_players r ≤ role_requirements r

/-- Well-formedness of a simulation state (for claim C7): at least one
strategy, counts aligned with the strategies, every strategy built over
`pool` with all acquired indices in range. -/
def SimWf (pool : List Player) (m : UCB1) : Prop :=
  m.strategies ≠ [] ∧ m.counts.length = m.strategies.length ∧
    ∀ s ∈ m.strategies, s.players = pool ∧
      ∀ p ∈ s.acquired_players, p < pool.length

/-!  Helper lemmas. -/

lemma getD_set_self {α : Type} {l : List α} {i : ℕ} {a d : α} (h : i < l.length) :
    (l.set i a).getD i d = a := by
  rw [List.getD_eq_getElem?_getD, List.getElem?_set_self h]
  rfl

lemma getD_set_ne {α : Type} {l : List α} {i j : ℕ} {a d : α} (h : i ≠ j) :
    (l.set i a).getD j d = l.getD j d := by
  rw [List.getD_eq_getElem?_getD, List.getElem?_set_ne h, ← List.getD_eq_getElem?_getD]

lemma getD_replicate {α : Type} {n i : ℕ} {a d : α} (h : i < n) :
    (List.replicate n a).getD i d = a := by
  rw [List.getD_eq_getElem?_getD, List.getElem?_replicate, if_pos h]
  rfl

/-- When `roleCount` succeeds it computes `roleCountN`. -/
lemma roleCount_eq_some_imp {players : List Player} {acquired : List ℕ} {r : Role}
    {c : ℕ} (h : roleCount players acquired r = some c) :
    roleCountN players acquired r = c := by
  induction acquired generalizing c with
  | nil => simpa [roleCount, roleCountN] using h
  | cons p rest ih =>
    rcases hq : players[p]? with _ | q
    · simp [roleCount, hq] at h
    · rw [roleCount, hq, Option.map_eq_some'] at h
      obtain ⟨c', hc', rfl⟩ := h
      have := ih hc'
      by_cases hr : q.role = r <;>
        simp [roleCountN, List.filter_cons, hq, hr, ← this, roleCountN, Nat.add_comm]

/-- When all acquired indices are in range, `roleCount` succeeds and
computes `roleCountN`. -/
lemma roleCount_of_valid {players : List Player} {acquired : List ℕ} {r : Role}
    (h : ∀ p ∈ acquired, p < players.length) :
    roleCount players acquired r = some (roleCountN players acquired r) := by
  induction acquired with
  | nil => simp [roleCount, roleCountN]
  | cons p rest ih =>
    have hp : p < players.length := h p (List.mem_cons_self p rest)
    have hrest : ∀ q ∈ rest, q < players.length :=
      fun q hq => h q (List.mem_cons_of_mem p hq)
    rw [roleCount, List.getElem?_eq_getElem hp, ih hrest]
    by_cases hr : players[p].role = r <;>
      simp [roleCountN, List.filter_cons, List.getElem?_eq_getElem hp, hr, Nat.add_comm]

/-- Appending one acquired index shifts the role count by one exactly on
that player's role. -/
lemma roleCountN_append {players : List Player} {acquired : List ℕ} {i : ℕ}
    {pl : Player} (hi : players[i]? = some pl) (r : Role) :
    roleCountN players (acquired ++ [i]) r =
      roleCountN players acquired r + (if pl.role = r then 1 else 0) := by
  by_cases hr : pl.role = r <;> simp [roleCountN, List.filter_append, hi, hr]

/-- `can_acquire` only succeeds when the candidate exists, and then reports
the comparison of `roleCount` against the requirement. -/
lemma can_acquire_eq_some {players : List Player} {acquired : List ℕ}
    {p : ℕ} {b : Bool} (h : can_acquire players acquired p = some b) :
    ∃ pl c, players[p]? = some pl ∧ roleCount players acquired pl.role = some c ∧
      b = decide (c < role_requirements pl.role) := by
  rcases hq : players[p]? with _ | pl
  · simp [can_acquire, hq] at h
  · rw [can_acquire, hq, Option.map_eq_some'] at h
    obtain ⟨c, hc, rfl⟩ := h
    exact ⟨pl, c, rfl, hc, rfl⟩

/-- A strategy whose role gate answers `false` bids exactly 0, whatever the
variant and whatever randomness it is given. -/
lemma compute_bid_of_gate_false {s : SimStrategy} {p : ℕ} (re : ℚ × ℚ)
    (h : can_acquire s.players s.acquired_players p = some false) :
    s.compute_bid p re = some 0 := by
  cases k : s.kind <;> simp [SimStrategy.compute_bid, k, h]

/-- A strategy whose role gate succeeds produces a bid, whatever the
variant. -/
lemma compute_bid_isSome_of_gate {s : SimStrategy} {p : ℕ} {ca : Bool} (re : ℚ × ℚ)
    (h : can_acquire s.players s.acquired_players p = some ca) :
    ∃ b, s.compute_bid p re = some b := by
  obtain ⟨pl, c, hpl, -, -⟩ := can_acquire_eq_some h
  cases k : s.kind <;> cases ca <;>
    simp [SimStrategy.compute_bid, k, h, hpl] <;> split <;> simp

/-- A successful bid implies the gate succeeded, and a gate answering
`false` forces the bid to be 0. -/
lemma compute_bid_eq_some_imp {s : SimStrategy} {p : ℕ} {re : ℚ × ℚ} {b : ℚ}
    (h : s.compute_bid p re = some b) :
    ∃ ca, can_acquire s.players s.acquired_players p = some ca ∧
      (ca = false → b = 0) := by
  rcases hca : can_acquire s.players s.acquired_players p with _ | ca
  · cases k : s.kind <;> simp [SimStrategy.compute_bid, k, hca] at h
  · refine ⟨ca, rfl, fun hf => ?_⟩
    subst hf
    have := compute_bid_of_gate_false re hca
    rw [h] at this
    exact Option.some_inj.mp this

/-- `firstZeroIdx` returns the position of the first zero. -/
lemma firstZeroIdx_spec {l : List ℕ} {i : ℕ} (h : firstZeroIdx l = some i) :
    i < l.length ∧ l.getD i 1 = 0 ∧ ∀ k < i, l.getD k 1 ≠ 0 := by
  induction l generalizing i with
  | nil => simp [firstZeroIdx] at h
  | cons c rest ih =>
    by_cases hc : c = 0
    · rw [firstZeroIdx, if_pos hc] at h
      obtain rfl : i = 0 := by simpa using h.symm
      exact ⟨Nat.succ_pos _, by simpa using hc, fun k hk => absurd hk (Nat.not_lt_zero k)⟩
    · rw [firstZeroIdx, if_neg hc, Option.map_eq_some'] at h
      obtain ⟨i', hi', rfl⟩ := h
      obtain ⟨h1, h2, h3⟩ := ih hi'
      refine ⟨Nat.succ_lt_succ h1, by simpa using h2, fun k hk => ?_⟩
      cases k with
      | zero => simpa using hc
      | succ k' => simpa using h3 k' (Nat.lt_of_succ_lt_succ hk)

/-- `firstZeroIdx` fails exactly when no count is zero. -/
lemma firstZeroIdx_eq_none_iff {l : List ℕ} :
    firstZeroIdx l = none ↔ ∀ c ∈ l, c ≠ 0 := by
  induction l with
  | nil => simp [firstZeroIdx]
  | cons c rest ih =>
    by_cases hc : c = 0 <;> simp [firstZeroIdx, hc, ih]

/-- A zero count guarantees the exploration branch fires. -/
lemma firstZeroIdx_isSome_of_mem {l : List ℕ} (h : (0 : ℕ) ∈ l) :
    ∃ i, firstZeroIdx l = some i := by
  rcases hz : firstZeroIdx l with _ | i
  · exact absurd rfl (firstZeroIdx_eq_none_iff.mp hz 0 h)
  · exact ⟨i, rfl⟩

/-- `maxWithIdx` fails only on the empty list. -/
lemma maxWithIdx_eq_none {l : List ℝ} (h : maxWithIdx l = none) : l = [] := by
  cases l with
  | nil => rfl
  | cons x xs =>
    rw [maxWithIdx] at h
    rcases hm : maxWithIdx xs with _ | jm
    · rw [hm] at h; simp at h
    · obtain ⟨j, m⟩ := jm
      rw [hm] at h
      by_cases hxm : x < m <;> simp [hxm] at h

/-- `maxWithIdx` returns the maximum value together with the first index
attaining it. -/
lemma maxWithIdx_spec {l : List ℝ} {j : ℕ} {v : ℝ}
    (h : maxWithIdx l = some (j, v)) :
    j < l.length ∧ l.getD j 0 = v ∧ (∀ i < l.length, l.getD i 0 ≤ v) ∧
      ∀ i < j, l.getD i 0 < v := by
  induction l generalizing j v with
  | nil => simp [maxWithIdx] at h
  | cons x xs ih =>
    rw [maxWithIdx] at h
    rcases hm : maxWithIdx xs with _ | ⟨j', m⟩
    · rw [hm] at h
      simp at h
      obtain ⟨rfl, rfl⟩ := h
      obtain rfl := maxWithIdx_eq_none hm
      refine ⟨Nat.succ_pos _, by simp, fun i hi => ?_, fun i hi => absurd hi (by simp)⟩
      obtain rfl : i = 0 := by simpa using hi
      simp
    · rw [hm] at h
      obtain ⟨h1, h2, h3, h4⟩ := ih hm
      simp only [] at h
      split_ifs at h with hxm
      · simp at h
        obtain ⟨rfl, rfl⟩ := h
        refine ⟨Nat.succ_lt_succ h1, by simpa using h2, fun i hi => ?_, fun i hi => ?_⟩
        · cases i with
          | zero => simpa using le_of_lt hxm
          | succ i' => simpa using h3 i' (Nat.lt_of_succ_lt_succ hi)
        · cases i with
          | zero => simpa using hxm
          | succ i' => simpa using h4 i' (Nat.lt_of_succ_lt_succ hi)
      · simp at h
        obtain ⟨rfl, rfl⟩ := h
        refine ⟨Nat.succ_pos _, by simp, fun i hi => ?_,
          fun i hi => absurd hi (by simp)⟩
        cases i with
        | zero => simp
        | succ i' =>
          have := h3 i' (Nat.lt_of_succ_lt_succ hi)
          simpa using le_trans this (not_lt.mp hxm)

/-- `maxWithIdx` succeeds on a nonempty list. -/
lemma maxWithIdx_isSome {l : List ℝ} (h : l ≠ []) :
    ∃ j v, maxWithIdx l = some (j, v) := by
  rcases hm : maxWithIdx l with _ | jm
  · exact absurd (maxWithIdx_eq_none hm) h
  · exact ⟨jm.1, jm.2, rfl⟩

lemma length_ucbValues (m : UCB1) : (ucbValues m).length = m.counts.length := by
  simp [ucbValues]

/-- `select_arm` on a state with a zero-count arm returns the first such. -/
lemma select_arm_explore {m : UCB1} {i : ℕ} (h : firstZeroIdx m.counts = some i) :
    m.select_arm = i := by
  simp [UCB1.select_arm, h]

/-- `select_arm` on a state with no zero-count arm returns the first index
of the maximal UCB value. -/
lemma select_arm_exploit {m : UCB1} (h : firstZeroIdx m.counts = none) :
    m.select_arm = idxOfMax (ucbValues m) := by
  simp [UCB1.select_arm, h]

lemma update_strategies (m : UCB1) (a : ℕ) (r : ℚ) :
    (m.update a r).strategies = m.strategies := rfl

lemma update_counts_length (m : UCB1) (a : ℕ) (r : ℚ) :
    (m.update a r).counts.length = m.counts.length := by
  simp [UCB1.update]

/-- Evaluating one round when the player lookup fails. -/
lemma runRound_err_pool {m : UCB1} {pool : List Player} {i : ℕ} {rc : ℚ}
    {re : ℚ × ℚ} (hpl : pool[i]? = none) :
    runRound m pool i rc re = Except.error SimError.indexOutOfRange := by
  simp [runRound, hpl]

/-- Evaluating one round when the strategy lookup fails. -/
lemma runRound_err_strat {m : UCB1} {pool : List Player} {i : ℕ} {rc : ℚ}
    {re : ℚ × ℚ} {pl : Player} (hpl : pool[i]? = some pl)
    (hs : m.strategies[m.select_arm]? = none) :
    runRound m pool i rc re = Except.error SimError.indexOutOfRange := by
  simp [runRound, hpl, hs]

/-- Evaluating one round when the bid computation fails. -/
lemma runRound_err_bid {m : UCB1} {pool : List Player} {i : ℕ} {rc : ℚ}
    {re : ℚ × ℚ} {pl : Player} {s : SimStrategy} (hpl : pool[i]? = some pl)
    (hs : m.strategies[m.select_arm]? = some s) (hbid : s.compute_bid i re = none) :
    runRound m pool i rc re = Except.error SimError.indexOutOfRange := by
  simp [runRound, hpl, hs, hbid]

/-- Evaluating one round when every lookup succeeds: the outcome is decided
by the strict comparison of the bid against the competitive bid. -/
lemma runRound_eq {m : UCB1} {pool : List Player} {i : ℕ} {rc : ℚ}
    {re : ℚ × ℚ} {pl : Player} {s : SimStrategy} {bid : ℚ}
    (hpl : pool[i]? = some pl) (hs : m.strategies[m.select_arm]? = some s)
    (hbid : s.compute_bid i re = some bid) :
    runRound m pool i rc re =
      if bid > pl.value * rc then
        Except.ok
          { m.update m.select_arm 1 with
            strategies := m.strategies.set m.select_arm (acquireUpd s pl i) }
      else Except.ok (m.update m.select_arm 0) := by
  simp only [runRound, hpl, hs, hbid]
  by_cases hc : bid > pl.value * rc
  · simp [hc, acquireUpd, update_strategies]
  · simp [hc]

/-- Case analysis on a successful round. -/
lemma runRound_ok_elim {m : UCB1} {pool : List Player} {i : ℕ} {rc : ℚ}
    {re : ℚ × ℚ} {m' : UCB1} (h : runRound m pool i rc re = Except.ok m') :
    ∃ pl s bid, pool[i]? = some pl ∧ m.strategies[m.select_arm]? = some s ∧
      s.compute_bid i re = some bid ∧
      ((bid > pl.value * rc ∧
          m' = { m.update m.select_arm 1 with
                 strategies := m.strategies.set m.select_arm (acquireUpd s pl i) }) ∨
        (¬bid > pl.value * rc ∧ m' = m.update m.select_arm 0)) := by
  rcases hpl : pool[i]? with _ | pl
  · rw [runRound_err_pool hpl] at h; exact absurd h (by simp)
  rcases hs : m.strategies[m.select_arm]? with _ | s
  · rw [runRound_err_strat hpl hs] at h; exact absurd h (by simp)
  rcases hbid : s.compute_bid i re with _ | bid
  · rw [runRound_err_bid hpl hs hbid] at h; exact absurd h (by simp)
  refine ⟨pl, s, bid, rfl, rfl, hbid, ?_⟩
  rw [runRound_eq hpl hs hbid] at h
  split_ifs at h with hc
  · cases h
    exact Or.inl ⟨hc, rfl⟩
  · cases h
    exact Or.inr ⟨hc, rfl⟩

/-- Unfolding one successful iteration of the loop. -/
lemma runSimAux_succ {pool : List Player} {randC : ℕ → ℚ} {randE : ℕ → ℚ × ℚ}
    {m m2 : UCB1} {i n : ℕ}
    (h : runRound m pool i (randC i) (randE i) = Except.ok m2) :
    runSimAux pool randC randE m i (n + 1) = runSimAux pool randC randE m2 (i + 1) n := by
  rw [runSimAux, h]

/-- A failing iteration aborts the whole loop with its error. -/
lemma runSimAux_succ_err {pool : List Player} {randC : ℕ → ℚ} {randE : ℕ → ℚ × ℚ}
    {m : UCB1} {i n : ℕ} {e : SimError}
    (h : runRound m pool i (randC i) (randE i) = Except.error e) :
    runSimAux pool randC randE m i (n + 1) = Except.error e := by
  rw [runSimAux, h]

/-- One successful round preserves the roster invariant of claim C1. -/
lemma runRound_roleInv {pool : List Player} {m m' : UCB1} {i : ℕ} {rc : ℚ}
    {re : ℚ × ℚ} (hpos : ∀ p ∈ pool, 0 < p.value) (hrc : 7 / 10 ≤ rc)
    (hinv : RoleInv pool m) (h : runRound m pool i rc re = Except.ok m') :
    RoleInv pool m' := by
  obtain ⟨pl, s, bid, hpl, hs, hbid, hcase⟩ := runRound_ok_elim h
  rcases hcase with ⟨hwin, rfl⟩ | ⟨hlose, rfl⟩
  · have hvpos : 0 < pl.value := hpos pl (List.getElem?_mem hpl)
    have hcbpos : 0 < pl.value * rc :=
      mul_pos hvpos (lt_of_lt_of_le (by norm_num) hrc)
    obtain ⟨ca, hca, hfalse⟩ := compute_bid_eq_some_imp hbid
    obtain ⟨hsp, hcount⟩ := hinv s (List.getElem?_mem hs)
    cases ca with
    | false =>
      rw [hfalse rfl] at hwin
      exact absurd hwin (not_lt.mpr (le_of_lt hcbpos))
    | true =>
      obtain ⟨pl2, c, hpl2, hc, hb⟩ := can_acquire_eq_some hca
      rw [hsp, hpl] at hpl2
      obtain rfl := Option.some_inj.mp hpl2
      have hlt : c < role_requirements pl.role := of_decide_eq_true hb.symm
      have hcn : roleCountN pool s.acquired_players pl.role = c :=
        roleCount_eq_some_imp (hsp ▸ hc)
      intro s' hmem'
      have hmem2 : s' ∈ m.strategies.set m.select_arm (acquireUpd s pl i) := hmem'
      rcases List.mem_or_eq_of_mem_set hmem2 with hold | rfl
      · exact hinv s' hold
      · refine ⟨hsp, fun r => ?_⟩
        show roleCountN pool (s.acquired_players ++ [i]) r ≤ role_requirements r
        rw [roleCountN_append hpl r]
        by_cases hr : pl.role = r
        · rw [if_pos hr, ← hr, hcn]
          omega
        · rw [if_neg hr]
          simpa using hcount r
  · intro s' hmem'
    rw [update_strategies] at hmem'
    exact hinv s' hmem'

/-- The whole loop preserves the roster invariant of claim C1. -/
lemma runSimAux_roleInv {pool : List Player} {randC : ℕ → ℚ} {randE : ℕ → ℚ × ℚ}
    (hpos : ∀ p ∈ pool, 0 < p.value)
    (hrc : ∀ n, competitiveFactorRange (randC n)) :
    ∀ (n i : ℕ) (m m' : UCB1), RoleInv pool m →
      runSimAux pool randC randE m i n = Except.ok m' → RoleInv pool m' := by
  intro n
  induction n with
  | zero =>
    intro i m m' hinv h
    rw [runSimAux] at h
    cases h
    exact hinv
  | succ n ih =>
    intro i m m' hinv h
    rcases hr : runRound m pool i (randC i) (randE i) with e | m2
    · rw [runSimAux_succ_err hr] at h
      exact absurd h (by simp)
    · rw [runSimAux_succ hr] at h
      exact ih (i + 1) m2 m' (runRound_roleInv hpos (hrc i).1 hinv hr) h

/-- `select_arm` stays in range whenever there is at least one arm. -/
lemma select_arm_lt {m : UCB1} (h : m.counts ≠ []) :
    m.select_arm < m.counts.length := by
  rcases hz : firstZeroIdx m.counts with _ | i
  · rw [select_arm_exploit hz]
    have hne : ucbValues m ≠ [] := by
      intro hc
      exact h (List.length_eq_zero.mp (by rw [← length_ucbValues m, hc, List.length_nil]))
    obtain ⟨j, v, hjv⟩ := maxWithIdx_isSome hne
    have := (maxWithIdx_spec hjv).1
    rw [idxOfMax, hjv]
    simpa [length_ucbValues] using this
  · rw [select_arm_explore hz]
    exact (firstZeroIdx_spec hz).1

/-- A well-formed state has a nonempty counts list. -/
lemma counts_ne_nil_of_wf {pool : List Player} {m : UCB1} (hwf : SimWf pool m) :
    m.counts ≠ [] := by
  obtain ⟨hne, hlen, -⟩ := hwf
  intro hc
  exact hne (List.length_eq_zero.mp (by rw [← hlen, hc, List.length_nil]))

/-- On a well-formed state a round before the end of the pool succeeds and
preserves well-formedness. -/
lemma runRound_wf {pool : List Player} {m : UCB1} {i : ℕ} (rc : ℚ) (re : ℚ × ℚ)
    (hwf : SimWf pool m) (hi : i < pool.length) :
    ∃ m', runRound m pool i rc re = Except.ok m' ∧ SimWf pool m' := by
  obtain ⟨hne, hlen, hstr⟩ := hwf
  have hsel : m.select_arm < m.strategies.length := by
    rw [← hlen]
    exact select_arm_lt (counts_ne_nil_of_wf ⟨hne, hlen, hstr⟩)
  have hs : m.strategies[m.select_arm]? = some m.strategies[m.select_arm] :=
    List.getElem?_eq_getElem hsel
  obtain ⟨hsp, hacq⟩ := hstr _ (List.getElem?_mem hs)
  have hpl : pool[i]? = some pool[i] := List.getElem?_eq_getElem hi
  have hca : can_acquire m.strategies[m.select_arm].players
      m.strategies[m.select_arm].acquired_players i =
      some (decide (roleCountN pool m.strategies[m.select_arm].acquired_players
        pool[i].role < role_requirements pool[i].role)) := by
    rw [hsp]
    simp only [can_acquire, hpl, roleCount_of_valid (fun p hp => hacq p hp),
      Option.map_some']
  obtain ⟨bid, hbid⟩ := compute_bid_isSome_of_gate re hca
  rw [runRound_eq hpl hs hbid]
  by_cases hcb : bid > pool[i].value * rc
  · rw [if_pos hcb]
    refine ⟨_, rfl, ?_, ?_, ?_⟩
    · show m.strategies.set m.select_arm _ ≠ []
      intro hcon
      have := List.length_set m.strategies m.select_arm
        (acquireUpd m.strategies[m.select_arm] pool[i] i)
      rw [hcon] at this
      exact hne (List.length_eq_zero.mp (by rw [← this, List.length_nil]))
    · show (m.update m.select_arm 1).counts.length = _
      rw [update_counts_length, List.length_set, hlen]
    · intro s' hmem'
      have hmem2 : s' ∈ m.strategies.set m.select_arm
          (acquireUpd m.strategies[m.select_arm] pool[i] i) := hmem'
      rcases List.mem_or_eq_of_mem_set hmem2 with hold | rfl
      · exact hstr s' hold
      · refine ⟨hsp, fun p hp => ?_⟩
        rcases List.mem_append.mp hp with hpold | hpi
        · exact hacq p hpold
        · rw [List.mem_singleton.mp hpi]
          exact hi
  · rw [if_neg hcb]
    refine ⟨_, rfl, hne, ?_, hstr⟩
    rw [update_counts_length, hlen]
    rfl

/-- Running any number of rounds that stays inside the pool succeeds from a
well-formed state. -/
lemma runSimAux_wf {pool : List Player} {randC : ℕ → ℚ} {randE : ℕ → ℚ × ℚ} :
    ∀ (n i : ℕ) (m : UCB1), SimWf pool m → i + n ≤ pool.length →
      ∃ m', runSimAux pool randC randE m i n = Except.ok m' ∧ SimWf pool m' := by
  intro n
  induction n with
  | zero =>
    intro i m hwf hle
    exact ⟨m, by rw [runSimAux], hwf⟩
  | succ n ih =>
    intro i m hwf hle
    have hi : i < pool.length := by omega
    obtain ⟨m2, hr, hwf2⟩ := runRound_wf (randC i) (randE i) hwf hi
    obtain ⟨m', h', hwf'⟩ := ih (i + 1) m2 hwf2 (by omega)
    refine ⟨m', ?_, hwf'⟩
    rw [runSimAux_succ hr]
    exact h'

/-- Running past the end of the pool from a well-formed state fails with
`indexOutOfRange` at the first out-of-range round. -/
lemma runSimAux_err_of_long {pool : List Player} {randC : ℕ → ℚ} {randE : ℕ → ℚ × ℚ} :
    ∀ (n i : ℕ) (m : UCB1), SimWf pool m → i ≤ pool.length →
      pool.length < i + n →
      runSimAux pool randC randE m i n = Except.error SimError.indexOutOfRange := by
  intro n
  induction n with
  | zero =>
    intro i m hwf hle hlong
    omega
  | succ n ih =>
    intro i m hwf hle hlong
    by_cases hi : i < pool.length
    · obtain ⟨m2, hr, hwf2⟩ := runRound_wf (randC i) (randE i) hwf hi
      rw [runSimAux_succ hr]
      exact ih (i + 1) m2 hwf2 (by omega) (by omega)
    · have hip : pool[i]? = none := List.getElem?_eq_none (by omega)
      exact runSimAux_succ_err (runRound_err_pool hip)

/-- `firstZeroIdx` skips a block of ones. -/
lemma firstZeroIdx_replicate_append (j : ℕ) (l : List ℕ) :
    firstZeroIdx (List.replicate j 1 ++ l) = (firstZeroIdx l).map (· + j) := by
  induction j with
  | zero => cases h : firstZeroIdx l <;> simp [h]
  | succ j ih =>
    rw [List.replicate_succ, List.cons_append, firstZeroIdx, if_neg one_ne_zero, ih]
    cases h : firstZeroIdx l <;> simp [h, Nat.add_assoc]

lemma getD_replicate_append_len (j : ℕ) (l : List ℕ) (d : ℕ) :
    (List.replicate j (1 : ℕ) ++ l).getD j d = l.getD 0 d := by
  rw [List.getD_append_right _ _ _ _ (by simp)]
  simp

lemma set_replicate_append (j : ℕ) (l : List ℕ) (v : ℕ) :
    (List.replicate j (1 : ℕ) ++ l).set j v = List.replicate j 1 ++ l.set 0 v := by
  rw [List.set_append, if_neg (by simp)]
  simp

/-- After `j` explore/update steps from a fresh bandit the first `j` arms
have count 1 and the rest still 0. -/
lemma exploreRun_counts (strats : List SimStrategy) (r : ℕ → ℚ) :
    ∀ j, j ≤ strats.length →
      (exploreRun (UCB1_init strats) r j).counts =
        List.replicate j 1 ++ List.replicate (strats.length - j) 0 := by
  intro j
  induction j with
  | zero => intro h; simp [exploreRun, UCB1_init]
  | succ j ih =>
    intro h
    have hc := ih (by omega)
    have hsplit : strats.length - j = (strats.length - j - 1) + 1 := by omega
    have hsel : (exploreRun (UCB1_init strats) r j).select_arm = j := by
      apply select_arm_explore
      rw [hc, hsplit, List.replicate_succ, firstZeroIdx_replicate_append]
      simp [firstZeroIdx]
    rw [exploreRun]
    simp only [UCB1.update, hsel, hc]
    rw [hsplit, List.replicate_succ, getD_replicate_append_len, List.getD_cons_zero,
      set_replicate_append, List.set_cons_zero]
    rw [List.replicate_succ' j 1, List.append_assoc]
    simp [Nat.sub_sub]

/-- `replay` distributes over append. -/
lemma replay_append (m : UCB1) (s t : List (ℕ × ℚ)) :
    replay m (s ++ t) = replay (replay m s) t := by
  induction s generalizing m with
  | nil => rfl
  | cons x rest ih =>
    obtain ⟨a, r⟩ := x
    rw [List.cons_append, replay, replay, ih]

lemma replay_counts_length (seq : List (ℕ × ℚ)) : ∀ m : UCB1,
    (replay m seq).counts.length = m.counts.length := by
  induction seq with
  | nil => intro m; rfl
  | cons x rest ih =>
    intro m
    obtain ⟨a, r⟩ := x
    rw [replay, ih]
    simp [UCB1.update]

lemma replay_values_length (seq : List (ℕ × ℚ)) : ∀ m : UCB1,
    (replay m seq).values.length = m.values.length := by
  induction seq with
  | nil => intro m; rfl
  | cons x rest ih =>
    intro m
    obtain ⟨a, r⟩ := x
    rw [replay, ih]
    simp [UCB1.update]

lemma armRewards_append_same (arm : ℕ) (seq : List (ℕ × ℚ)) (r : ℚ) :
    armRewards arm (seq ++ [(arm, r)]) = armRewards arm seq ++ [r] := by
  simp [armRewards, List.filter_append]

lemma armRewards_append_other {arm a : ℕ} (seq : List (ℕ × ℚ)) (r : ℚ)
    (h : a ≠ arm) :
    armRewards arm (seq ++ [(a, r)]) = armRewards arm seq := by
  simp [armRewards, List.filter_append, h]

/-- C2: for every strategy variant (all four `SKind` constructors) and every
valid player index `p`, if the strategy's acquired players already include
`role_requirements` many players of `p`'s role, then `can_acquire` answers
`some false` and `compute_bid` returns `some 0`, whatever randomness is
supplied and whatever the bid history and budget are. -/
theorem claim_C2_full_role_gate (k : SKind) (players : List Player)
    (acquired : List ℕ) (hist : List ℚ) (budget : ℚ) (p : ℕ) (pl : Player)
    (re : ℚ × ℚ) (hp : players[p]? = some pl)
    (hvalid : ∀ q ∈ acquired, q < players.length)
    (hfull : role_requirements pl.role ≤ roleCountN players acquired pl.role) :
    can_acquire players acquired p = some false ∧
    SimStrategy.compute_bid ⟨k, players, acquired, hist, budget⟩ p re = some 0 := by
  have hca : can_acquire players acquired p = some false := by
    simp only [can_acquire, hp, roleCount_of_valid hvalid, Option.map_some',
      Option.some_inj]
    exact decide_eq_false (Nat.not_lt.mpr hfull)
  exact ⟨hca, compute_bid_of_gate_false re hca⟩

/-- Witness for C2: a goalkeeper slot already filled (requirement 1) forces
`can_acquire = some false` and a zero bid on a second goalkeeper. -/
theorem claim_C2_witness :
    can_acquire [⟨100, 60, Role.goalkeeper⟩, ⟨90, 50, Role.goalkeeper⟩] [0] 1 =
      some false ∧
    SimStrategy.compute_bid
      ⟨SKind.valueBased, [⟨100, 60, Role.goalkeeper⟩, ⟨90, 50, Role.goalkeeper⟩],
        [0], [], 1000⟩ 1 (0, 0) = some 0 :=
  claim_C2_full_role_gate SKind.valueBased
    [⟨100, 60, Role.goalkeeper⟩, ⟨90, 50, Role.goalkeeper⟩] [0] [] 1000 1
    ⟨90, 50, Role.goalkeeper⟩ (0, 0) (by decide) (by decide) (by decide)

/-- C3: if some arm has count 0, `select_arm` returns the lowest such index;
otherwise (so every arm has count at least 1) it returns the first index of
the maximal entry of `ucbValues` — the arm maximizing
`meanReward + sqrt(2 * ln(totalCount) / count)`, ties broken by lowest
index.  (The `getD` defaults are irrelevant: every index involved is in
range.) -/
theorem claim_C3_select_arm_spec (m : UCB1) (hne : m.counts ≠ []) :
    if (0 : ℕ) ∈ m.counts then
      m.select_arm < m.counts.length ∧ m.counts.getD m.select_arm 1 = 0 ∧
        ∀ i < m.select_arm, m.counts.getD i 1 ≠ 0
    else
      m.select_arm < m.counts.length ∧
        (∀ i < m.counts.length,
          (ucbValues m).getD i 0 ≤ (ucbValues m).getD m.select_arm 0) ∧
        ∀ i < m.select_arm,
          (ucbValues m).getD i 0 < (ucbValues m).getD m.select_arm 0 := by
  by_cases h0 : (0 : ℕ) ∈ m.counts
  · rw [if_pos h0]
    obtain ⟨i, hz⟩ := firstZeroIdx_isSome_of_mem h0
    rw [select_arm_explore hz]
    exact firstZeroIdx_spec hz
  · rw [if_neg h0]
    have hz : firstZeroIdx m.counts = none :=
      firstZeroIdx_eq_none_iff.mpr (fun c hc hc0 => h0 (hc0 ▸ hc))
    rw [select_arm_exploit hz]
    have hneu : ucbValues m ≠ [] := by
      intro hc
      exact hne (List.length_eq_zero.mp (by rw [← length_ucbValues m, hc, List.length_nil]))
    obtain ⟨j, v, hjv⟩ := maxWithIdx_isSome hneu
    obtain ⟨h1, h2, h3, h4⟩ := maxWithIdx_spec hjv
    have hidx : idxOfMax (ucbValues m) = j := by rw [idxOfMax, hjv]; rfl
    rw [hidx]
    refine ⟨by rw [← length_ucbValues m]; exact h1, fun i hi => ?_, fun i hi => ?_⟩
    · rw [h2]
      refine h3 i ?_
      rw [length_ucbValues]
      exact hi
    · rw [h2]
      exact h4 i hi

/-- Witness for C3 at a state with a zero-count arm. -/
theorem claim_C3_witness :
    if (0 : ℕ) ∈ (UCB1.mk [] [0, 1] [0, 0]).counts then
      (UCB1.mk [] [0, 1] [0, 0]).select_arm <
          (UCB1.mk [] [0, 1] [0, 0]).counts.length ∧
        (UCB1.mk [] [0, 1] [0, 0]).counts.getD
            (UCB1.mk [] [0, 1] [0, 0]).select_arm 1 = 0 ∧
        ∀ i < (UCB1.mk [] [0, 1] [0, 0]).select_arm,
          (UCB1.mk [] [0, 1] [0, 0]).counts.getD i 1 ≠ 0
    else
      (UCB1.mk [] [0, 1] [0, 0]).select_arm <
          (UCB1.mk [] [0, 1] [0, 0]).counts.length ∧
        (∀ i < (UCB1.mk [] [0, 1] [0, 0]).counts.length,
          (ucbValues (UCB1.mk [] [0, 1] [0, 0])).getD i 0 ≤
            (ucbValues (UCB1.mk [] [0, 1] [0, 0])).getD
              (UCB1.mk [] [0, 1] [0, 0]).select_arm 0) ∧
        ∀ i < (UCB1.mk [] [0, 1] [0, 0]).select_arm,
          (ucbValues (UCB1.mk [] [0, 1] [0, 0])).getD i 0 <
            (ucbValues (UCB1.mk [] [0, 1] [0, 0])).getD
              (UCB1.mk [] [0, 1] [0, 0]).select_arm 0 :=
  claim_C3_select_arm_spec (UCB1.mk [] [0, 1] [0, 0]) (by decide)

/-- C9: with `k` strategies and a fresh bandit, alternating `select_arm`
with the simulation's `update` on the selected arm makes the first `k`
selections return `0, 1, ..., k-1` in ascending order: the `j`-th selection
is `j`, for every reward stream. -/
theorem claim_C9_forced_exploration (strats : List SimStrategy) (r : ℕ → ℚ)
    (j : ℕ) (hj : j < strats.length) :
    (exploreRun (UCB1_init strats) r j).select_arm = j := by
  apply select_arm_explore
  rw [exploreRun_counts strats r j (le_of_lt hj)]
  have hsplit : strats.length - j = (strats.length - j - 1) + 1 := by omega
  rw [hsplit, List.replicate_succ, firstZeroIdx_replicate_append]
  simp [firstZeroIdx]

/-- Witness for C9: with three strategies the second selection is arm 1. -/
theorem claim_C9_witness :
    (exploreRun
      (UCB1_init [⟨SKind.valueBased, [], [], [], 0⟩,
        ⟨SKind.valueBased, [], [], [], 0⟩, ⟨SKind.valueBased, [], [], [], 0⟩])
      (fun _ => 1) 1).select_arm = 1 :=
  claim_C9_forced_exploration
    [⟨SKind.valueBased, [], [], [], 0⟩, ⟨SKind.valueBased, [], [], [], 0⟩,
      ⟨SKind.valueBased, [], [], [], 0⟩] (fun _ => 1) 1 (by decide)

/-- C10: `update(chosen_arm, reward)` touches only the chosen arm's count
and value: the strategies list, both lengths, and every other arm's count
and value are unchanged.  (`select_arm` is embedded as the pure function
`UCB1 → ℕ`, reflecting that the source method only reads state.) -/
theorem claim_C10_update_frame (m : UCB1) (a i : ℕ) (r : ℚ) (hia : i ≠ a) :
    (m.update a r).strategies = m.strategies ∧
    (m.update a r).counts.length = m.counts.length ∧
    (m.update a r).values.length = m.values.length ∧
    (m.update a r).counts.getD i 0 = m.counts.getD i 0 ∧
    (m.update a r).values.getD i 0 = m.values.getD i 0 := by
  refine ⟨rfl, by simp [UCB1.update], by simp [UCB1.update], ?_, ?_⟩
  · simp only [UCB1.update]
    exact getD_set_ne (Ne.symm hia)
  · simp only [UCB1.update]
    exact getD_set_ne (Ne.symm hia)

/-- Witness for C10 at a two-arm state, updating arm 0 and reading arm 1. -/
theorem claim_C10_witness :
    ((UCB1.mk [] [5, 7] [1, 2]).update 0 1).strategies =
      (UCB1.mk [] [5, 7] [1, 2]).strategies ∧
    ((UCB1.mk [] [5, 7] [1, 2]).update 0 1).counts.length =
      (UCB1.mk [] [5, 7] [1, 2]).counts.length ∧
    ((UCB1.mk [] [5, 7] [1, 2]).update 0 1).values.length =
      (UCB1.mk [] [5, 7] [1, 2]).values.length ∧
    ((UCB1.mk [] [5, 7] [1, 2]).update 0 1).counts.getD 1 0 =
      (UCB1.mk [] [5, 7] [1, 2]).counts.getD 1 0 ∧
    ((UCB1.mk [] [5, 7] [1, 2]).update 0 1).values.getD 1 0 =
      (UCB1.mk [] [5, 7] [1, 2]).values.getD 1 0 :=
  claim_C10_update_frame (UCB1.mk [] [5, 7] [1, 2]) 0 1 1 (by decide)

/-- C5: in any round whose lookups succeed, the outcome is decided by the
strict comparison `bid > competitive_bid` (a tie is a loss).  On a win the
bandit is updated with reward 1, the player's index is appended to the
chosen strategy's acquired players and the player's cost is subtracted from
its remaining budget; on a loss (including ties) the bandit is updated with
reward 0 and every strategy's state is unchanged. -/
theorem claim_C5_round_outcome (m : UCB1) (pool : List Player) (i : ℕ)
    (rc : ℚ) (re : ℚ × ℚ) (pl : Player) (s : SimStrategy) (bid : ℚ)
    (hpl : pool[i]? = some pl) (hs : m.strategies[m.select_arm]? = some s)
    (hbid : s.compute_bid i re = some bid) :
    (bid > pl.value * rc →
      runRound m pool i rc re =
        Except.ok { m.update m.select_arm 1 with
          strategies := m.strategies.set m.select_arm
            { s with acquired_players := s.acquired_players ++ [i]
                     remaining_budget := s.remaining_budget - pl.cost } }) ∧
    (¬bid > pl.value * rc →
      runRound m pool i rc re = Except.ok (m.update m.select_arm 0) ∧
      (m.update m.select_arm 0).strategies = m.strategies) := by
  constructor
  · intro hc
    rw [runRound_eq hpl hs hbid, if_pos hc]
    rfl
  · intro hc
    rw [runRound_eq hpl hs hbid, if_neg hc]
    exact ⟨rfl, rfl⟩

/-- Witness for C5: one ValueBased strategy, player of value 100 and cost
60, competitive factor 1; the bid 80 does not exceed 100. -/
theorem claim_C5_witness :
    ((80 : ℚ) > (100 : ℚ) * 1 →
      runRound (UCB1_init [⟨SKind.valueBased, [⟨100, 60, Role.forward⟩], [], [], 1000⟩])
          [⟨100, 60, Role.forward⟩] 0 1 (1, 1) =
        Except.ok
          { (UCB1_init [⟨SKind.valueBased, [⟨100, 60, Role.forward⟩], [], [], 1000⟩]).update
              (UCB1_init [⟨SKind.valueBased, [⟨100, 60, Role.forward⟩], [], [], 1000⟩]).select_arm 1 with
            strategies :=
              (UCB1_init [⟨SKind.valueBased, [⟨100, 60, Role.forward⟩], [], [], 1000⟩]).strategies.set
                (UCB1_init [⟨SKind.valueBased, [⟨100, 60, Role.forward⟩], [], [], 1000⟩]).select_arm
                { (⟨SKind.valueBased, [⟨100, 60, Role.forward⟩], [], [], 1000⟩ : SimStrategy) with
                  acquired_players := ([] : List ℕ) ++ [0]
                  remaining_budget := (1000 : ℚ) - (60 : ℚ) } }) ∧
    (¬(80 : ℚ) > (100 : ℚ) * 1 →
      runRound (UCB1_init [⟨SKind.valueBased, [⟨100, 60, Role.forward⟩], [], [], 1000⟩])
          [⟨100, 60, Role.forward⟩] 0 1 (1, 1) =
        Except.ok
          ((UCB1_init [⟨SKind.valueBased, [⟨100, 60, Role.forward⟩], [], [], 1000⟩]).update
            (UCB1_init [⟨SKind.valueBased, [⟨100, 60, Role.forward⟩], [], [], 1000⟩]).select_arm 0) ∧
      ((UCB1_init [⟨SKind.valueBased, [⟨100, 60, Role.forward⟩], [], [], 1000⟩]).update
          (UCB1_init [⟨SKind.valueBased, [⟨100, 60, Role.forward⟩], [], [], 1000⟩]).select_arm 0).strategies =
        (UCB1_init [⟨SKind.valueBased, [⟨100, 60, Role.forward⟩], [], [], 1000⟩]).strategies) :=
  claim_C5_round_outcome
    (UCB1_init [⟨SKind.valueBased, [⟨100, 60, Role.forward⟩], [], [], 1000⟩])
    [⟨100, 60, Role.forward⟩] 0 1 (1, 1) ⟨100, 60, Role.forward⟩
    ⟨SKind.valueBased, [⟨100, 60, Role.forward⟩], [], [], 1000⟩ 80
    (by decide) (by decide)
    (by norm_num [SimStrategy.compute_bid, can_acquire, roleCount, role_requirements])

/-- C1: the roster invariant.  For any pool of positive-value players, any
initial state whose strategies are built over the pool and respect the role
requirements (in particular the fresh strategies with empty rosters), and
any competitive-bid draws in the range of `random.uniform(0.7, 1.2)`, every
state reachable by running any number of rounds (every prefix of every run)
still has, for every strategy and every role, at most `role_requirements`
acquired players of that role. -/
theorem claim_C1_role_invariant (pool : List Player) (randC : ℕ → ℚ)
    (randE : ℕ → ℚ × ℚ) (m0 : UCB1) (hpos : ∀ p ∈ pool, 0 < p.value)
    (hrc : ∀ n, competitiveFactorRange (randC n)) (hinv : RoleInv pool m0)
    (k : ℕ) (m' : UCB1)
    (hrun : runSimAux pool randC randE m0 0 k = Except.ok m') :
    RoleInv pool m' :=
  runSimAux_roleInv hpos hrc k 0 m0 m' hinv hrun

/-- Witness for C1: a one-player pool, one fresh ValueBased strategy, one
round with competitive factor 1 (the bid 80 loses against 100, leaving the
roster empty). -/
theorem claim_C1_witness :
    RoleInv [⟨100, 60, Role.forward⟩]
      (UCB1.mk [⟨SKind.valueBased, [⟨100, 60, Role.forward⟩], [], [], 1000⟩] [1] [0]) :=
  claim_C1_role_invariant [⟨100, 60, Role.forward⟩] (fun _ => 1) (fun _ => (1, 1))
    (UCB1_init [⟨SKind.valueBased, [⟨100, 60, Role.forward⟩], [], [], 1000⟩])
    (by decide) (fun n => ⟨by norm_num, by norm_num⟩) (by unfold RoleInv; decide) 1
    (UCB1.mk [⟨SKind.valueBased, [⟨100, 60, Role.forward⟩], [], [], 1000⟩] [1] [0])
    (by norm_num [runSimAux, runRound, SimStrategy.compute_bid, can_acquire,
      roleCount, role_requirements, UCB1.select_arm, firstZeroIdx, UCB1_init,
      UCB1.update])

/-- C7: for every pool and every requested number of rounds strictly larger
than the pool's length, the run from any well-formed state completes the
first `pool.length` rounds and then the round indexing past the last player
makes `warm_start_simulation` abort with `indexOutOfRange`, returning no
partial state. -/
theorem claim_C7_rounds_overflow (pool : List Player) (randC : ℕ → ℚ)
    (randE : ℕ → ℚ × ℚ) (m0 : UCB1) (n_rounds : ℕ)
    (hlong : pool.length < n_rounds) (hwf : SimWf pool m0) :
    (∃ m', runSimAux pool randC randE m0 0 pool.length = Except.ok m') ∧
    warm_start_simulation m0 pool randC randE (some n_rounds) =
      Except.error SimError.indexOutOfRange := by
  constructor
  · obtain ⟨m', h, -⟩ := runSimAux_wf pool.length 0 m0 hwf (by omega)
    exact ⟨m', h⟩
  · rw [warm_start_simulation, Option.getD_some]
    exact runSimAux_err_of_long n_rounds 0 m0 hwf (by omega) (by omega)

/-- Witness for C7: a one-player pool asked for two rounds. -/
theorem claim_C7_witness :
    (∃ m', runSimAux [⟨100, 60, Role.forward⟩] (fun _ => 1) (fun _ => (1, 1))
      (UCB1_init [⟨SKind.valueBased, [⟨100, 60, Role.forward⟩], [], [], 1000⟩]) 0
      ([⟨100, 60, Role.forward⟩] : List Player).length = Except.ok m') ∧
    warm_start_simulation
      (UCB1_init [⟨SKind.valueBased, [⟨100, 60, Role.forward⟩], [], [], 1000⟩])
      [⟨100, 60, Role.forward⟩] (fun _ => 1) (fun _ => (1, 1)) (some 2) =
      Except.error SimError.indexOutOfRange :=
  claim_C7_rounds_overflow [⟨100, 60, Role.forward⟩] (fun _ => 1) (fun _ => (1, 1))
    (UCB1_init [⟨SKind.valueBased, [⟨100, 60, Role.forward⟩], [], [], 1000⟩]) 2
    (by decide) (by unfold SimWf; decide)

/-- C6 (evidence for a code bug): the constructors do not implement the
spec's `(playerPool, initialBudget, ...)` contract.  `BaseBiddingStrategy`
(inherited by `ValueBased` and `OptimalTeamCompositionLP`) accepts only the
player pool; `EpsilonGreedy`'s and `Reactive`'s second positional parameter
is `epsilon` / `initial_bid_factor`, so the script's call
`EpsilonGreedy(historical_data, initial_budget)` stores the budget 1000 as
`epsilon`, and no constructor sets a `remaining_budget` attribute (the
constructed objects' attributes are exactly the fields below). -/
theorem claim_C6_constructor_mismatch (players : List Player) :
    EpsilonGreedy_init players 1000 (8 / 10) =
      { players := players, acquired_players := [], epsilon := 1000,
        exploitation_factor := 8 / 10 } ∧
    Reactive_init players 1000 =
      { players := players, acquired_players := [], bid_history := [],
        initial_bid_factor := 1000 } ∧
    BaseBiddingStrategy_init players =
      { players := players, acquired_players := [] } :=
  ⟨rfl, rfl, rfl⟩

lemma lt_length_of_getElem?_eq_some {α : Type} {l : List α} {n : ℕ} {a : α}
    (h : l[n]? = some a) : n < l.length := by
  by_contra hge
  rw [List.getElem?_eq_none (not_lt.mp hge)] at h
  exact Option.noConfusion h

/-- No round ever changes any strategy's `bid_history`. -/
lemma runRound_bid_history {m : UCB1} {pool : List Player} {i : ℕ} {rc : ℚ}
    {re : ℚ × ℚ} {m' : UCB1} (h : runRound m pool i rc re = Except.ok m') :
    ∀ j : ℕ, (m'.strategies[j]?).map SimStrategy.bid_history =
      (m.strategies[j]?).map SimStrategy.bid_history := by
  obtain ⟨pl, s, bid, hpl, hs, hbid, hcase⟩ := runRound_ok_elim h
  rcases hcase with ⟨-, rfl⟩ | ⟨-, rfl⟩
  · intro j
    show ((m.strategies.set m.select_arm (acquireUpd s pl i))[j]?).map _ = _
    rw [List.getElem?_set]
    by_cases hj : m.select_arm = j
    · rw [if_pos hj, if_pos (lt_length_of_getElem?_eq_some hs), ← hj, hs]
      simp [acquireUpd]
    · rw [if_neg hj]
  · intro j
    rw [update_strategies]

/-- The whole loop never changes any strategy's `bid_history`. -/
lemma runSimAux_bid_history {pool : List Player} {randC : ℕ → ℚ}
    {randE : ℕ → ℚ × ℚ} :
    ∀ (n i : ℕ) (m m' : UCB1),
      runSimAux pool randC randE m i n = Except.ok m' →
      ∀ j : ℕ, (m'.strategies[j]?).map SimStrategy.bid_history =
        (m.strategies[j]?).map SimStrategy.bid_history := by
  intro n
  induction n with
  | zero =>
    intro i m m' h j
    rw [runSimAux] at h
    cases h
    rfl
  | succ n ih =>
    intro i m m' h j
    rcases hr : runRound m pool i (randC i) (randE i) with e | m2
    · rw [runSimAux_succ_err hr] at h
      exact absurd h (by simp)
    · rw [runSimAux_succ hr] at h
      rw [ih (i + 1) m2 m' h j, runRound_bid_history hr j]

/-- C8: `Reactive.compute_bid` with the empty bid history it is constructed
with is extensionally the constant-factor bidder of the spec (bid
`value * initial_bid_factor` when the gate allows, 0 otherwise), and no
simulation run ever records anything into any strategy's `bid_history`, so
this holds at every point of every run regardless of how many bids were
computed or won. -/
theorem claim_C8_reactive_constant_factor :
    (∀ (players : List Player) (acquired : List ℕ) (budget f : ℚ) (p : ℕ)
      (re : ℚ × ℚ),
      SimStrategy.compute_bid ⟨SKind.reactive f, players, acquired, [], budget⟩ p re =
        constantFactorBid players acquired f p) ∧
    (∀ (pool : List Player) (randC : ℕ → ℚ) (randE : ℕ → ℚ × ℚ) (m m' : UCB1)
      (i n : ℕ), runSimAux pool randC randE m i n = Except.ok m' →
      ∀ j : ℕ, (m'.strategies[j]?).map SimStrategy.bid_history =
        (m.strategies[j]?).map SimStrategy.bid_history) := by
  constructor
  · intro players acquired budget f p re
    rcases hca : can_acquire players acquired p with _ | ca
    · simp [SimStrategy.compute_bid, constantFactorBid, hca]
    · obtain ⟨pl, c, hp, -, -⟩ := can_acquire_eq_some hca
      cases ca
      · simp [SimStrategy.compute_bid, constantFactorBid, hca, hp]
      · simp [SimStrategy.compute_bid, constantFactorBid, hca, hp]
  · intro pool randC randE m m' i n h j
    exact runSimAux_bid_history n i m m' h j

/-- Witness for C8: a reactive bid on a fresh roster, and the trivial
zero-round run. -/
theorem claim_C8_witness :
    SimStrategy.compute_bid
      ⟨SKind.reactive 1, [⟨100, 60, Role.forward⟩], [], [], 0⟩ 0 (0, 0) =
      constantFactorBid [⟨100, 60, Role.forward⟩] [] 1 0 ∧
    ((UCB1_init []).strategies[0]?).map SimStrategy.bid_history =
      ((UCB1_init []).strategies[0]?).map SimStrategy.bid_history :=
  ⟨claim_C8_reactive_constant_factor.1 [⟨100, 60, Role.forward⟩] [] 0 1 0 (0, 0),
    claim_C8_reactive_constant_factor.2 [] (fun _ => 1) (fun _ => (1, 1))
      (UCB1_init []) (UCB1_init []) 0 0 rfl 0⟩

/-- The incremental-average step agrees with the recomputed mean. -/
lemma mean_step (L : ℕ) (S rr : ℚ) (hS : L = 0 → S = 0) :
    ((((L : ℚ) + 1) - 1) / ((L : ℚ) + 1)) * (if L = 0 then 0 else S / (L : ℚ)) +
      (1 / ((L : ℚ) + 1)) * rr =
    (S + rr) / ((L : ℚ) + 1) := by
  rcases Nat.eq_zero_or_pos L with h0 | hpos
  · subst h0
    rw [hS rfl]
    norm_num
  · rw [if_neg (by omega)]
    have hL : (L : ℚ) ≠ 0 := Nat.cast_ne_zero.mpr (by omega)
    have hL1 : (L : ℚ) + 1 ≠ 0 := by positivity
    field_simp
    ring

/-- C4: replaying any sequence of `update(arm, reward)` calls on a fresh
bandit leaves each arm's count equal to the number of updates it received
and each arm's value equal to the arithmetic mean of exactly the rewards it
received (0 when it received none) — exactly over `ℚ`.  Quantifying over
all sequences covers every prefix of every update sequence. -/
theorem claim_C4_incremental_mean (strats : List SimStrategy)
    (seq : List (ℕ × ℚ)) (harm : ∀ x ∈ seq, x.1 < strats.length) (arm : ℕ)
    (ha : arm < strats.length) :
    (replay (UCB1_init strats) seq).counts.getD arm 0 =
      (armRewards arm seq).length ∧
    (replay (UCB1_init strats) seq).values.getD arm 0 =
      (if (armRewards arm seq).length = 0 then 0
       else (armRewards arm seq).sum / ((armRewards arm seq).length : ℚ)) := by
  revert harm
  induction seq using List.reverseRecOn with
  | nil =>
    intro harm
    constructor
    · simp [replay, UCB1_init, armRewards, getD_replicate ha]
    · simp [replay, UCB1_init, armRewards, getD_replicate ha]
  | append_singleton seq x ih =>
    intro harm
    obtain ⟨a, rr⟩ := x
    have ha2 : a < strats.length := by
      have := harm (a, rr) (by simp)
      simpa using this
    obtain ⟨ihc, ihv⟩ := ih (fun y hy => harm y (List.mem_append_left _ hy))
    rw [replay_append]
    simp only [replay]
    have hclen : (replay (UCB1_init strats) seq).counts.length = strats.length := by
      rw [replay_counts_length]
      simp [UCB1_init]
    have hvlen : (replay (UCB1_init strats) seq).values.length = strats.length := by
      rw [replay_values_length]
      simp [UCB1_init]
    by_cases haa : a = arm
    · subst haa
      rw [armRewards_append_same]
      constructor
      · simp only [UCB1.update]
        rw [getD_set_self (by rw [hclen]; exact ha2), ihc]
        simp
      · simp only [UCB1.update]
        rw [getD_set_self (by rw [hvlen]; exact ha2), ihc, ihv]
        rw [List.length_append, List.sum_append]
        simp only [List.length_cons, List.length_nil, List.sum_cons, List.sum_nil,
          add_zero]
        rw [if_neg (Nat.succ_ne_zero (armRewards a seq).length)]
        push_cast
        exact mean_step ((armRewards a seq).length) ((armRewards a seq).sum) rr
          (fun h0 => by rw [List.length_eq_zero.mp h0]; rfl)
    · rw [armRewards_append_other seq rr haa]
      constructor
      · simp only [UCB1.update]
        rw [getD_set_ne haa]
        exact ihc
      · simp only [UCB1.update]
        rw [getD_set_ne haa]
        exact ihv

/-- Witness for C4: one arm, one update with reward 1. -/
theorem claim_C4_witness :
    (replay (UCB1_init [⟨SKind.valueBased, [], [], [], 0⟩]) [(0, 1)]).counts.getD 0 0 =
      (armRewards 0 [(0, 1)]).length ∧
    (replay (UCB1_init [⟨SKind.valueBased, [], [], [], 0⟩]) [(0, 1)]).values.getD 0 0 =
      (if (armRewards 0 [(0, 1)]).length = 0 then 0
       else (armRewards 0 [(0, 1)]).sum / ((armRewards 0 [(0, 1)]).length : ℚ)) :=
  claim_C4_incremental_mean [⟨SKind.valueBased, [], [], [], 0⟩] [(0, 1)]
    (by decide) 0 (by decide)
